import Mathlib

/-!
Verification of the constant-propagation domain and pass of this repository.

The repository provides `SignedConstantDomain` (a reduced product of a sign
lattice and a flat constant lattice, `ConstantEnvironment.h`) and its unit
tests.  `reduce_product` and both constructors are translated directly from
`ConstantEnvironment.h`.  The sign lattice (`SignDomain.h`), the flat constant
lattice (`ConstantAbstractDomain.h`), the generic reduced-product wrapper
(`ReducedProductAbstractDomain.h`) and the analysis/transform pass
(`ConstantPropagation.cpp`) are not part of the sources here; they are
modelled from the specification, as flagged on each definition.
-/

/-- Modelled from the spec: the seven-element sign lattice of `SignDomain.h`
(missing from the sources), plus BOTTOM.  Each element denotes a set of
integers determined by which of the three sign categories
(negative / zero / positive) it admits. -/
inductive sign_domain.Interval where
  | bot
  | ltz
  | eqz
  | gtz
  | lez
  | nez
  | gez
  | all
  deriving DecidableEq, Repr

namespace sign_domain.Interval

/-- Modelled from the spec: whether the interval admits negative integers. -/
def negBit : Interval → Bool
  | .bot => false
  | .ltz => true
  | .eqz => false
  | .gtz => false
  | .lez => true
  | .nez => true
  | .gez => false
  | .all => true

/-- Modelled from the spec: whether the interval admits zero. -/
def zeroBit : Interval → Bool
  | .bot => false
  | .ltz => false
  | .eqz => true
  | .gtz => false
  | .lez => true
  | .nez => false
  | .gez => true
  | .all => true

/-- Modelled from the spec: whether the interval admits positive integers. -/
def posBit : Interval → Bool
  | .bot => false
  | .ltz => false
  | .eqz => false
  | .gtz => true
  | .lez => false
  | .nez => true
  | .gez => true
  | .all => true

/-- Modelled from the spec: the interval admitting exactly the given sign
categories. -/
def ofBits : Bool → Bool → Bool → Interval
  | false, false, false => .bot
  | true,  false, false => .ltz
  | false, true,  false => .eqz
  | false, false, true  => .gtz
  | true,  true,  false => .lez
  | true,  false, true  => .nez
  | false, true,  true  => .gez
  | true,  true,  true  => .all

/-- Modelled from the spec and the repository's unit tests: join in the finite
sign lattice.  The spec describes join as set union, but the unit test
`SignedConstantDomainOperations` requires `of(1).join(of(-1))` to be TOP
(`is_top`, interval ALL): the join of the strictly-negative and the
strictly-positive intervals is ALL rather than NEZ.  Every other case is set
union. -/
def join (a b : Interval) : Interval :=
  if (a = .ltz ∧ b = .gtz) ∨ (a = .gtz ∧ b = .ltz) then .all
  else ofBits (a.negBit || b.negBit) (a.zeroBit || b.zeroBit) (a.posBit || b.posBit)

/-- The join of the spec's words alone: set union in the finite sign lattice,
used to compare the spec's description with the behaviour the unit tests pin
down. -/
def unionSpec (a b : Interval) : Interval :=
  ofBits (a.negBit || b.negBit) (a.zeroBit || b.zeroBit) (a.posBit || b.posBit)

/-- Modelled from the spec: meet is set intersection in the finite sign
lattice. -/
def meet (a b : Interval) : Interval :=
  ofBits (a.negBit && b.negBit) (a.zeroBit && b.zeroBit) (a.posBit && b.posBit)

/-- Modelled from the spec: `contains(I, n)` tests membership of `n` in the
set denoted by the interval. -/
def containsInt (i : Interval) (n : Int) : Bool :=
  if n < 0 then i.negBit else if n = 0 then i.zeroBit else i.posBit

end sign_domain.Interval

/-- Modelled from the spec: `sign_domain::from_int`, mapping `n < 0` to LTZ,
`n = 0` to EQZ and `n > 0` to GTZ (`SignDomain.h` is missing from the
sources). -/
def sign_domain.from_int (n : Int) : sign_domain.Interval :=
  if n < 0 then .ltz else if n = 0 then .eqz else .gtz

/-- Modelled from the spec: the flat constant lattice over 64-bit signed
integers of `ConstantAbstractDomain.h` (missing from the sources): BOTTOM, a
singleton, or TOP. -/
inductive ConstantDomain where
  | bot
  | top
  | const (v : Int)
  deriving DecidableEq, Repr

namespace ConstantDomain

/-- Modelled from the spec: join in the flat lattice — two distinct
singletons join to TOP. -/
def join : ConstantDomain → ConstantDomain → ConstantDomain
  | .bot, c => c
  | c, .bot => c
  | .top, _ => .top
  | _, .top => .top
  | .const u, .const v => if u = v then .const u else .top

/-- Modelled from the spec: meet in the flat lattice — two distinct
singletons meet to BOTTOM. -/
def meet : ConstantDomain → ConstantDomain → ConstantDomain
  | .bot, _ => .bot
  | _, .bot => .bot
  | .top, c => c
  | c, .top => c
  | .const u, .const v => if u = v then .const u else .bot

/-- Modelled from the spec: `get_constant`, the singleton observer of the
flat lattice. -/
def get_constant : ConstantDomain → Option Int
  | .const v => some v
  | _ => none

/-- Modelled from the spec: the partial order of the flat lattice. -/
def leq : ConstantDomain → ConstantDomain → Bool
  | .bot, _ => true
  | _, .top => true
  | .const u, .const v => u = v
  | _, _ => false

end ConstantDomain

/-- The reduced product of the sign lattice and the flat constant lattice,
`SignedConstantDomain` of `ConstantEnvironment.h`.  A raw pair of the two
components; well-formed values are normalised so that the unique bottom is
the pair of component bottoms. -/
structure SignedConstantDomain where
  sign : sign_domain.Interval
  cst : ConstantDomain
  deriving DecidableEq, Repr

/-- Translated from `SignedConstantDomain::reduce_product` in
`ConstantEnvironment.h`: if the sign is EQZ, meet the constant with the
singleton 0; else, if the constant is a singleton outside the sign interval,
set the sign to bottom; otherwise meet the sign with `from_int` of the
singleton. -/
def reduce_product (p : sign_domain.Interval × ConstantDomain) : sign_domain.Interval × ConstantDomain :=
  let sdom := p.1
  let cdom := p.2
  if sdom = sign_domain.Interval.eqz then
    (sdom, cdom.meet (ConstantDomain.const 0))
  else
    match cdom.get_constant with
    | none => (sdom, cdom)
    | some cst =>
      if sdom.containsInt cst = false then
        (sign_domain.Interval.bot, cdom)
      else
        (sdom.meet (sign_domain.from_int cst), cdom)

namespace SignedConstantDomain

/-- The canonical bottom value of the reduced product. -/
def bottom : SignedConstantDomain := ⟨sign_domain.Interval.bot, ConstantDomain.bot⟩

/-- The top value of the reduced product. -/
def top : SignedConstantDomain := ⟨sign_domain.Interval.all, ConstantDomain.top⟩

/-- Modelled from the spec: the tuple constructor of
`ReducedProductAbstractDomain.h` (missing from the sources) applies
`reduce_product` and collapses the pair to BOTTOM as soon as either
component is bottom. -/
def make (s : sign_domain.Interval) (c : ConstantDomain) : SignedConstantDomain :=
  let r := reduce_product (s, c)
  if r.1 = sign_domain.Interval.bot ∨ r.2 = ConstantDomain.bot then bottom
  else ⟨r.1, r.2⟩

/-- Translated from the `SignedConstantDomain(int64_t v)` constructor of
`ConstantEnvironment.h`: the pair of sign TOP and the singleton `v`, reduced. -/
def of (v : Int) : SignedConstantDomain := make sign_domain.Interval.all (ConstantDomain.const v)

/-- Translated from the `SignedConstantDomain(sign_domain::Interval)`
constructor of `ConstantEnvironment.h`: the pair of the given interval and
constant TOP, reduced. -/
def of_interval (i : sign_domain.Interval) : SignedConstantDomain := make i ConstantDomain.top

/-- The `interval()` accessor of `ConstantEnvironment.h`. -/
def interval (x : SignedConstantDomain) : sign_domain.Interval := x.sign

/-- Modelled from the spec: componentwise join followed by the reduction
rule (`ReducedProductAbstractDomain.h` is missing from the sources). -/
def join (x y : SignedConstantDomain) : SignedConstantDomain :=
  make (x.sign.join y.sign) (x.cst.join y.cst)

/-- Modelled from the spec: componentwise meet followed by the reduction
rule (`ReducedProductAbstractDomain.h` is missing from the sources). -/
def meet (x y : SignedConstantDomain) : SignedConstantDomain :=
  make (x.sign.meet y.sign) (x.cst.meet y.cst)

/-- Modelled from the spec: componentwise widening — the finite sign
component is extrapolated by join, the constant component jumps to TOP on
disagreement — followed by the reduction rule. -/
def widen (x y : SignedConstantDomain) : SignedConstantDomain :=
  if x = bottom then y
  else if y = bottom then x
  else make (x.sign.join y.sign) (if y.cst.leq x.cst then x.cst else ConstantDomain.top)

/-- The singleton observer lifted to the reduced product. -/
def getConst (x : SignedConstantDomain) : Option Int := x.cst.get_constant

end SignedConstantDomain

/-- An `Option`-guarded property over the constant observer is decidable. -/
def optionAllDec (o : Option Int) (P : Int → Prop) [DecidablePred P] :
    Decidable (∀ v, o = some v → P v) :=
  match o with
  | none => isTrue (by simp)
  | some a => decidable_of_iff (P a) (by simp)

/-- The reduction rule of the spec, as a predicate on reduced-product values:
the value is BOTTOM, or neither component is bottom, an EQZ sign forces the
singleton 0, and a singleton constant lies in the sign interval with the sign
meet-reduced to `from_int` of it. -/
def isReduced (x : SignedConstantDomain) : Prop :=
  x = SignedConstantDomain.bottom ∨
    (x.sign ≠ .bot ∧ x.cst ≠ .bot ∧
      (x.sign = .eqz → x.cst = .const 0) ∧
      (∀ v, x.cst.get_constant = some v →
        x.sign.containsInt v = true ∧ x.sign.meet (sign_domain.from_int v) = x.sign))

instance (x : SignedConstantDomain) : Decidable (isReduced x) := by
  unfold isReduced
  have := optionAllDec x.cst.get_constant
    (fun v => x.sign.containsInt v = true ∧ x.sign.meet (sign_domain.from_int v) = x.sign)
  exact instDecidableOr

namespace SignedConstantDomain

theorem make_cst_bot (s : sign_domain.Interval) : make s ConstantDomain.bot = bottom := by
  cases s <;> rfl

theorem of_eq (v : Int) : of v = ⟨sign_domain.from_int v, ConstantDomain.const v⟩ := by
  rcases lt_trichotomy v 0 with h | h | h
  · simp [of, make, reduce_product, ConstantDomain.get_constant, sign_domain.from_int,
      sign_domain.Interval.containsInt, sign_domain.Interval.meet,
      sign_domain.Interval.negBit, sign_domain.Interval.zeroBit,
      sign_domain.Interval.posBit, sign_domain.Interval.ofBits, h]
  · subst h
    rfl
  · simp [of, make, reduce_product, ConstantDomain.get_constant, sign_domain.from_int,
      sign_domain.Interval.containsInt, sign_domain.Interval.meet,
      sign_domain.Interval.negBit, sign_domain.Interval.zeroBit,
      sign_domain.Interval.posBit, sign_domain.Interval.ofBits, h,
      not_lt.mpr h.le, h.ne.symm]

theorem isReduced_make (s : sign_domain.Interval) (c : ConstantDomain) :
    isReduced (make s c) := by
  cases c with
  | bot =>
    rw [make_cst_bot]
    exact Or.inl rfl
  | top =>
    cases s <;> decide
  | const v =>
    rcases lt_trichotomy v 0 with h | h | h
    · cases s <;>
        simp_all [isReduced, make, reduce_product, ConstantDomain.get_constant,
          ConstantDomain.meet, sign_domain.from_int, sign_domain.Interval.containsInt,
          sign_domain.Interval.meet, sign_domain.Interval.negBit,
          sign_domain.Interval.zeroBit, sign_domain.Interval.posBit,
          sign_domain.Interval.ofBits, bottom, h, h.ne, h.not_le]
    · subst h
      cases s <;> decide
    · cases s <;>
        simp_all [isReduced, make, reduce_product, ConstantDomain.get_constant,
          ConstantDomain.meet, sign_domain.from_int, sign_domain.Interval.containsInt,
          sign_domain.Interval.meet, sign_domain.Interval.negBit,
          sign_domain.Interval.zeroBit, sign_domain.Interval.posBit,
          sign_domain.Interval.ofBits, bottom, h, h.ne.symm, not_lt.mpr h.le, h.le]

end SignedConstantDomain

/-- C1: Reduction closure — every `SignedConstantDomain` produced by a
constructor (`of`, `of_interval`) or by a lattice operation (`join`, `meet`,
or `widen` on reduced operands) is either BOTTOM or satisfies the reduction
rule: an EQZ sign forces the constant component to the singleton 0, and a
singleton constant `v` lies in the sign interval (otherwise the whole value is
BOTTOM) with the sign component meet-reduced to `from_int v`. -/
theorem C1_reduction_closure :
    (∀ v : Int, isReduced (SignedConstantDomain.of v)) ∧
    (∀ i, isReduced (SignedConstantDomain.of_interval i)) ∧
    (∀ x y : SignedConstantDomain, isReduced (x.join y)) ∧
    (∀ x y : SignedConstantDomain, isReduced (x.meet y)) ∧
    (∀ x y : SignedConstantDomain, isReduced x → isReduced y → isReduced (x.widen y)) := by
  refine ⟨fun v => SignedConstantDomain.isReduced_make _ _,
    fun i => SignedConstantDomain.isReduced_make _ _,
    fun x y => SignedConstantDomain.isReduced_make _ _,
    fun x y => SignedConstantDomain.isReduced_make _ _,
    fun x y hx hy => ?_⟩
  unfold SignedConstantDomain.widen
  split_ifs
  · exact hy
  · exact hx
  · exact SignedConstantDomain.isReduced_make _ _
  · exact SignedConstantDomain.isReduced_make _ _

/-- Witness for C1 at concrete inputs: widening two concrete reduced values
yields a reduced value. -/
theorem C1_witness :
    isReduced ((SignedConstantDomain.of 3).widen (SignedConstantDomain.of_interval .gez)) :=
  C1_reduction_closure.2.2.2.2 _ _ (by decide) (by decide)

/-- C2: Round-trip of the reduced product — the value constructed from the
sign interval EQZ equals the value constructed from the integer 0, and its
constant component is the singleton 0. -/
theorem C2_roundtrip_eqz :
    SignedConstantDomain.of_interval .eqz = SignedConstantDomain.of 0 ∧
    (SignedConstantDomain.of_interval .eqz).cst = ConstantDomain.const 0 := by
  decide

/-- C8 as stated is false at u = 1, v = -1: the sign component of
`of(1) ⊔ of(-1)` is ALL (the value is TOP, as the unit test
`SignedConstantDomainOperations` requires), not the set union NEZ of
`from_int(1)` and `from_int(-1)`. -/
theorem C8_counterexample :
    ((SignedConstantDomain.of 1).join (SignedConstantDomain.of (-1))).sign ≠
      sign_domain.Interval.unionSpec (sign_domain.from_int 1) (sign_domain.from_int (-1)) := by
  decide

set_option maxRecDepth 10000 in
/-- C8 (amended): join of two distinct singletons u ≠ v yields constant
component TOP and sign component the sign-lattice join of `from_int u` and
`from_int v` — set union except that a strictly-negative and a
strictly-positive sign join to ALL; in particular `of 1 ⊔ of 0` has interval
GEZ, `of (-1) ⊔ of 0` has interval LEZ, `of 1 ⊔ of (-1)` is TOP, also at the
64-bit extremes. -/
theorem C8_join_distinct_singletons :
    (∀ u v : Int, u ≠ v →
      ((SignedConstantDomain.of u).join (SignedConstantDomain.of v)).cst = ConstantDomain.top ∧
      ((SignedConstantDomain.of u).join (SignedConstantDomain.of v)).sign =
        (sign_domain.from_int u).join (sign_domain.from_int v)) ∧
    ((SignedConstantDomain.of 1).join (SignedConstantDomain.of 0)).interval = .gez ∧
    ((SignedConstantDomain.of (-1)).join (SignedConstantDomain.of 0)).interval = .lez ∧
    (SignedConstantDomain.of 1).join (SignedConstantDomain.of (-1)) = SignedConstantDomain.top ∧
    ((SignedConstantDomain.of (2 ^ 63 - 1)).join (SignedConstantDomain.of 0)).interval = .gez ∧
    ((SignedConstantDomain.of (-2 ^ 63)).join (SignedConstantDomain.of 0)).interval = .lez ∧
    (SignedConstantDomain.of (2 ^ 63 - 1)).join (SignedConstantDomain.of (-2 ^ 63)) =
      SignedConstantDomain.top := by
  refine ⟨?_, by decide, by decide, by decide, by decide, by decide, by decide⟩
  intro u v huv
  rw [SignedConstantDomain.of_eq, SignedConstantDomain.of_eq]
  have hc : (ConstantDomain.const u).join (ConstantDomain.const v) = ConstantDomain.top := by
    simp [ConstantDomain.join, huv]
  simp only [SignedConstantDomain.join, hc]
  have hcase : ∀ n : Int, sign_domain.from_int n = .ltz ∨ sign_domain.from_int n = .eqz ∨
      sign_domain.from_int n = .gtz := by
    intro n
    unfold sign_domain.from_int
    split_ifs <;> simp
  have heqz : ∀ n : Int, sign_domain.from_int n = .eqz → n = 0 := by
    intro n h
    unfold sign_domain.from_int at h
    split_ifs at h <;> simp_all
  rcases hcase u with h1 | h1 | h1 <;> rcases hcase v with h2 | h2 | h2 <;> rw [h1, h2] <;>
    first
    | decide
    | exact absurd ((heqz u h1).trans (heqz v h2).symm) huv

/-- Witness for C8 at concrete distinct inputs 5 and 7. -/
theorem C8_witness :
    ((SignedConstantDomain.of 5).join (SignedConstantDomain.of 7)).cst = ConstantDomain.top ∧
    ((SignedConstantDomain.of 5).join (SignedConstantDomain.of 7)).sign =
      (sign_domain.from_int 5).join (sign_domain.from_int 7) :=
  C8_join_distinct_singletons.1 5 7 (by decide)

set_option maxRecDepth 10000 in
/-- C9: meet of a singleton `of v` with an interval value `of_interval I` is
`of v` exactly when `v` lies in `I` and BOTTOM otherwise, for every `v`; in
particular at the 64-bit extremes against GTZ and LTZ. -/
theorem C9_meet_singleton_interval :
    (∀ (v : Int) (i : sign_domain.Interval),
      (SignedConstantDomain.of v).meet (SignedConstantDomain.of_interval i) =
        if i.containsInt v then SignedConstantDomain.of v else SignedConstantDomain.bottom) ∧
    (SignedConstantDomain.of (2 ^ 63 - 1)).meet (SignedConstantDomain.of_interval .gtz) =
      SignedConstantDomain.of (2 ^ 63 - 1) ∧
    (SignedConstantDomain.of (2 ^ 63 - 1)).meet (SignedConstantDomain.of_interval .ltz) =
      SignedConstantDomain.bottom ∧
    (SignedConstantDomain.of (-2 ^ 63)).meet (SignedConstantDomain.of_interval .ltz) =
      SignedConstantDomain.of (-2 ^ 63) ∧
    (SignedConstantDomain.of (-2 ^ 63)).meet (SignedConstantDomain.of_interval .gtz) =
      SignedConstantDomain.bottom := by
  refine ⟨?_, by decide, by decide, by decide, by decide⟩
  intro v i
  rw [SignedConstantDomain.of_eq]
  rcases lt_trichotomy v 0 with h | h | h
  · cases i <;>
      simp_all [SignedConstantDomain.meet, SignedConstantDomain.of_interval,
        SignedConstantDomain.make, reduce_product, ConstantDomain.meet,
        ConstantDomain.get_constant, sign_domain.from_int, sign_domain.Interval.containsInt,
        sign_domain.Interval.meet, sign_domain.Interval.negBit, sign_domain.Interval.zeroBit,
        sign_domain.Interval.posBit, sign_domain.Interval.ofBits, SignedConstantDomain.bottom,
        h, h.ne, h.not_le]
  · subst h
    cases i <;> decide
  · cases i <;>
      simp_all [SignedConstantDomain.meet, SignedConstantDomain.of_interval,
        SignedConstantDomain.make, reduce_product, ConstantDomain.meet,
        ConstantDomain.get_constant, sign_domain.from_int, sign_domain.Interval.containsInt,
        sign_domain.Interval.meet, sign_domain.Interval.negBit, sign_domain.Interval.zeroBit,
        sign_domain.Interval.posBit, sign_domain.Interval.ofBits, SignedConstantDomain.bottom,
        h, h.ne.symm, not_lt.mpr h.le, h.le]

/-- C10: `reduce_product` is idempotent — a tuple already processed by
`reduce_product` is a fixed point of it. -/
theorem C10_reduce_product_idempotent :
    ∀ p : sign_domain.Interval × ConstantDomain,
      reduce_product (reduce_product p) = reduce_product p := by
  rintro ⟨s, c⟩
  cases c with
  | bot => cases s <;> decide
  | top => cases s <;> decide
  | const v =>
    rcases lt_trichotomy v 0 with h | h | h
    · cases s <;>
        simp_all [reduce_product, ConstantDomain.meet, ConstantDomain.get_constant,
          sign_domain.from_int, sign_domain.Interval.containsInt, sign_domain.Interval.meet,
          sign_domain.Interval.negBit, sign_domain.Interval.zeroBit,
          sign_domain.Interval.posBit, sign_domain.Interval.ofBits, h, h.ne, h.not_le]
    · subst h
      cases s <;> decide
    · cases s <;>
        simp_all [reduce_product, ConstantDomain.meet, ConstantDomain.get_constant,
          sign_domain.from_int, sign_domain.Interval.containsInt, sign_domain.Interval.meet,
          sign_domain.Interval.negBit, sign_domain.Interval.zeroBit,
          sign_domain.Interval.posBit, sign_domain.Interval.ofBits, h, h.ne.symm,
          not_lt.mpr h.le, h.le]

/-- The largest 64-bit signed integer. -/
def int64Max : Int := 2 ^ 63 - 1

/-- The smallest 64-bit signed integer. -/
def int64Min : Int := -2 ^ 63

/-- The largest 32-bit signed integer. -/
def int32Max : Int := 2 ^ 31 - 1

/-- The smallest 32-bit signed integer. -/
def int32Min : Int := -2 ^ 31

namespace SignedConstantDomain

/-- Modelled from the spec: `max_element` (declared in `ConstantEnvironment.h`,
body missing) — the singleton if known, else the upper bound of the sign
interval (GTZ/GEZ/NEZ/ALL give INT64_MAX, EQZ and LEZ give 0, LTZ gives -1);
on BOTTOM the maximum of the empty set is taken as INT64_MIN. -/
def max_element (x : SignedConstantDomain) : Int :=
  match x.cst.get_constant with
  | some v => v
  | none =>
    match x.sign with
    | .gtz | .gez | .nez | .all => int64Max
    | .eqz | .lez => 0
    | .ltz => -1
    | .bot => int64Min

/-- Modelled from the spec: `min_element` (declared in `ConstantEnvironment.h`,
body missing) — the singleton if known, else the lower bound of the sign
interval (LTZ/LEZ/NEZ/ALL give INT64_MIN, EQZ and GEZ give 0, GTZ gives 1);
on BOTTOM the minimum of the empty set is taken as INT64_MAX. -/
def min_element (x : SignedConstantDomain) : Int :=
  match x.cst.get_constant with
  | some v => v
  | none =>
    match x.sign with
    | .ltz | .lez | .nez | .all => int64Min
    | .eqz | .gez => 0
    | .gtz => 1
    | .bot => int64Max

end SignedConstantDomain

namespace constant_propagation

/-- Modelled from the spec: the cmp-long transfer function of the missing
`ConstantPropagation.cpp` — the sign of A - B from interval bounds: if A's
upper bound is below B's lower bound the result is the singleton -1, if B's
upper bound is below A's lower bound it is the singleton 1, else the join of
the outcomes still possible (-1 when A may be below B, 1 when A may be above
B, 0 when the intervals overlap); two equal singletons give exactly 0. -/
def cmpLongSem (a b : SignedConstantDomain) : SignedConstantDomain :=
  if a = SignedConstantDomain.bottom ∨ b = SignedConstantDomain.bottom then
    SignedConstantDomain.bottom
  else if a.max_element < b.min_element then SignedConstantDomain.of (-1)
  else if b.max_element < a.min_element then SignedConstantDomain.of 1
  else
    let r1 := if a.min_element < b.max_element then SignedConstantDomain.of (-1)
      else SignedConstantDomain.bottom
    let r2 := if b.min_element < a.max_element then SignedConstantDomain.of 1
      else SignedConstantDomain.bottom
    let r3 := if a.min_element ≤ b.max_element ∧ b.min_element ≤ a.max_element then
        SignedConstantDomain.of 0
      else SignedConstantDomain.bottom
    (r1.join r2).join r3

/-- Modelled from the spec: the per-block register environment (the missing
`PatriciaTreeMapAbstractEnvironment`), restricted to the registers v0..v3 that
the reference programs use; any other register reads as TOP and writes to it
are dropped, which matches the absent-key-is-TOP convention. -/
structure RegState where
  r0 : SignedConstantDomain
  r1 : SignedConstantDomain
  r2 : SignedConstantDomain
  r3 : SignedConstantDomain
  deriving DecidableEq, Repr

/-- Register lookup; absent keys are TOP. -/
def RegState.get (st : RegState) (i : Nat) : SignedConstantDomain :=
  match i with
  | 0 => st.r0
  | 1 => st.r1
  | 2 => st.r2
  | 3 => st.r3
  | _ => SignedConstantDomain.top

/-- Register update; registers beyond v3 are not tracked. -/
def RegState.set (st : RegState) (i : Nat) (v : SignedConstantDomain) : RegState :=
  match i with
  | 0 => { st with r0 := v }
  | 1 => { st with r1 := v }
  | 2 => { st with r2 := v }
  | 3 => { st with r3 := v }
  | _ => st

/-- The all-TOP environment, the default-constructed `ConstantEnvironment`. -/
def RegState.topState : RegState :=
  ⟨SignedConstantDomain.top, SignedConstantDomain.top,
   SignedConstantDomain.top, SignedConstantDomain.top⟩

/-- Modelled from the spec: an abstract environment is either the BOTTOM
sentinel (unreachable) or a register state. -/
abbrev Env := Option RegState

/-- Modelled from the spec: pointwise join of environments; BOTTOM is the
identity. -/
def joinEnv : Env → Env → Env
  | none, e => e
  | e, none => e
  | some a, some b =>
    some ⟨a.r0.join b.r0, a.r1.join b.r1, a.r2.join b.r2, a.r3.join b.r3⟩

/-- Modelled from the spec: pointwise widening of environments; BOTTOM is the
identity. -/
def widenEnv : Env → Env → Env
  | none, e => e
  | e, none => e
  | some a, some b =>
    some ⟨a.r0.widen b.r0, a.r1.widen b.r1, a.r2.widen b.r2, a.r3.widen b.r3⟩

/-- Modelled from the spec: the non-branching instructions of the IR fragment
that the reference programs use. -/
inductive Insn where
  | const (d : Nat) (v : Int)
  | constWide (d : Nat) (v : Int)
  | loadParam (d : Nat)
  | moveReg (d s : Nat)
  | cmpLong (d a b : Nat)
  | addIntLit8 (d s : Nat) (lit : Int)
  deriving DecidableEq, Repr

/-- Modelled from the spec: the predicates of conditional branches. -/
inductive Cond where
  | eqz (a : Nat)
  | nez (a : Nat)
  | ltz (a : Nat)
  | gtz (a : Nat)
  | lez (a : Nat)
  | gez (a : Nat)
  | eq (a b : Nat)
  deriving DecidableEq, Repr

/-- Modelled from the spec: block terminators — unconditional jump,
conditional branch with taken and fallthrough successors, or return. -/
inductive Term where
  | goto (t : Nat)
  | branch (c : Cond) (taken fall : Nat)
  | ret
  deriving DecidableEq, Repr

/-- A basic block: straight-line instructions and a terminator. -/
structure Block where
  insns : List Insn
  term : Term
  deriving DecidableEq, Repr

/-- A control-flow graph as a list of blocks; block 0 is the entry. -/
abbrev Program := List Block

/-- The configuration of the pass, as in `ConstPropConfig`. -/
structure ConstPropConfig where
  fold_arithmetic : Bool := false
  deriving DecidableEq, Repr

/-- Modelled from the spec: the per-instruction transfer function of the
missing `ConstantPropagation.cpp`.  `const` writes the singleton; wide
variants invalidate the paired register; unmodeled writers (load-param, and
add-with-literal when folding is off or overflows the 32-bit result width)
write TOP. -/
def evalInsn (cfg : ConstPropConfig) (st : RegState) : Insn → RegState
  | .const d v => st.set d (SignedConstantDomain.of v)
  | .constWide d v =>
    (st.set d (SignedConstantDomain.of v)).set (d + 1) SignedConstantDomain.top
  | .loadParam d => st.set d SignedConstantDomain.top
  | .moveReg d s => st.set d (st.get s)
  | .cmpLong d a b => st.set d (cmpLongSem (st.get a) (st.get b))
  | .addIntLit8 d s lit =>
    if cfg.fold_arithmetic then
      match (st.get s).getConst with
      | some v =>
        if int32Min ≤ v + lit ∧ v + lit ≤ int32Max then
          st.set d (SignedConstantDomain.of (v + lit))
        else st.set d SignedConstantDomain.top
      | none => st.set d SignedConstantDomain.top
    else st.set d SignedConstantDomain.top

end constant_propagation

namespace constant_propagation

/-- Meet one register with a refining value; a bottom register makes the
whole environment BOTTOM. -/
def meetReg (st : RegState) (a : Nat) (d : SignedConstantDomain) : Env :=
  let m := (st.get a).meet d
  if m = SignedConstantDomain.bottom then none else some (st.set a m)

/-- Modelled from the spec: per-edge refinement of the branch predicate —
each zero-test meets its register with the corresponding interval on the
taken edge and with the complementary interval on the fallthrough edge; for
`if-eq`, two equal singletons leave the taken edge unchanged and kill the
fallthrough edge, two distinct singletons kill the taken edge, and when one
operand is known EQZ the other is refined by EQZ (taken) or NEZ
(fallthrough). -/
def refineCond (c : Cond) (tk : Bool) (st : RegState) : Env :=
  match c with
  | .eqz a => meetReg st a (SignedConstantDomain.of_interval (if tk then .eqz else .nez))
  | .nez a => meetReg st a (SignedConstantDomain.of_interval (if tk then .nez else .eqz))
  | .ltz a => meetReg st a (SignedConstantDomain.of_interval (if tk then .ltz else .gez))
  | .gtz a => meetReg st a (SignedConstantDomain.of_interval (if tk then .gtz else .lez))
  | .lez a => meetReg st a (SignedConstantDomain.of_interval (if tk then .lez else .gtz))
  | .gez a => meetReg st a (SignedConstantDomain.of_interval (if tk then .gez else .ltz))
  | .eq a b =>
    match (st.get a).getConst, (st.get b).getConst with
    | some u, some v =>
      if tk then (if u = v then some st else none)
      else (if u = v then none else some st)
    | _, _ =>
      if (st.get a).sign = .eqz then
        meetReg st b (SignedConstantDomain.of_interval (if tk then .eqz else .nez))
      else if (st.get b).sign = .eqz then
        meetReg st a (SignedConstantDomain.of_interval (if tk then .eqz else .nez))
      else some st

/-- The out-state of a block: the instruction transfers applied to its
in-state; BOTTOM stays BOTTOM. -/
def outOf (cfg : ConstPropConfig) (b : Block) (e : Env) : Env :=
  e.map (fun st => b.insns.foldl (evalInsn cfg) st)

/-- Modelled from the spec: the contribution of the edge from a block to the
successor `dst` — the out-state, refined along branch edges; when the taken
and fallthrough successors coincide no refinement is applied on that edge. -/
def edgeContrib (cfg : ConstPropConfig) (b : Block) (e : Env) (dst : Nat) : Env :=
  match outOf cfg b e with
  | none => none
  | some st =>
    match b.term with
    | .goto t => if t = dst then some st else none
    | .ret => none
    | .branch c t f =>
      if t = f then (if t = dst then some st else none)
      else
        joinEnv (if t = dst then refineCond c true st else none)
          (if f = dst then refineCond c false st else none)

/-- Modelled from the spec: one round of the forward dataflow — the in-state
of block `i` is the join over all incoming edge contributions (plus the
initial environment for the entry block), widened against the previous
in-state at loop heads. -/
def stepAnalysis (cfg : ConstPropConfig) (p : Program) (heads : List Nat) (init : Env)
    (s : List Env) : List Env :=
  (List.range p.length).map fun i =>
    let base : Env := if i = 0 then init else none
    let contrib := (p.zip s).foldl
      (fun acc bs => joinEnv acc (edgeContrib cfg bs.1 bs.2 i)) base
    if heads.contains i then widenEnv (s.getD i none) contrib else contrib

/-- Iterate a step function until it stabilises, within the given fuel. -/
def analyzeLoop (f : List Env → List Env) : Nat → List Env → Option (List Env)
  | 0, _ => none
  | n + 1, s =>
    let s2 := f s
    if s2 = s then some s else analyzeLoop f n s2

/-- Modelled from the spec: the fixpoint iterator of the missing
`ConstantPropagation.cpp` — run from all-BOTTOM states with the all-TOP
initial environment at the entry block, widening at the given loop heads,
and return the converged per-block in-states. -/
def analyze (cfg : ConstPropConfig) (p : Program) (heads : List Nat) (fuel : Nat) :
    Option (List Env) :=
  analyzeLoop (stepAnalysis cfg p heads (some RegState.topState)) fuel
    (List.replicate p.length none)

/-- Modelled from the spec: the instruction-rewriting half of the transform —
replay the block's states and, when folding is enabled, replace an
add-with-literal whose destination became a singleton by the corresponding
`const`; returns the rewritten instructions and the state at the terminator. -/
def transformInsns (cfg : ConstPropConfig) : List Insn → RegState → List Insn × RegState
  | [], st => ([], st)
  | i :: rest, st =>
    let st2 := evalInsn cfg st i
    let i2 : Insn :=
      match i with
      | .addIntLit8 d _ _ =>
        if cfg.fold_arithmetic then
          match (st2.get d).getConst with
          | some v => .const d v
          | none => i
        else i
      | _ => i
    let r := transformInsns cfg rest st2
    (i2 :: r.1, r.2)

/-- Modelled from the spec: the branch-rewriting half of the transform — a
branch whose fallthrough refinement is BOTTOM under the state at the branch
becomes a goto to the taken successor, one whose taken refinement is BOTTOM
becomes a goto to the fallthrough successor, and a branch with both
refinements BOTTOM (unreachable) is left intact. -/
def transformTerm (t : Term) (st : RegState) : Term :=
  match t with
  | .branch c tk fl =>
    let tr := refineCond c true st
    let fr := refineCond c false st
    if tr = none ∧ fr = none then t
    else if fr = none then .goto tk
    else if tr = none then .goto fl
    else t
  | t => t

/-- Modelled from the spec: transform one block under its converged in-state;
an unreachable block (BOTTOM in-state) is left intact. -/
def transformBlock (cfg : ConstPropConfig) (b : Block) (e : Env) : Block :=
  match e with
  | none => b
  | some st =>
    let p := transformInsns cfg b.insns st
    ⟨p.1, transformTerm b.term p.2⟩

/-- Modelled from the spec: the whole pass — run the fixpoint analysis and
apply the transform blockwise, as `do_const_prop` does in the unit tests. -/
def do_const_prop (cfg : ConstPropConfig) (p : Program) (heads : List Nat) (fuel : Nat) :
    Option Program :=
  (analyze cfg p heads fuel).map (fun s => List.zipWith (transformBlock cfg) p s)

end constant_propagation

namespace constant_propagation

/-- The `IfToGoto` test program: `const v0 0; if-eqz v0 L; const v0 1;
L: const v0 2`. -/
def ifToGotoProg : Program :=
  [⟨[.const 0 0], .branch (.eqz 0) 2 1⟩,
   ⟨[.const 0 1], .goto 2⟩,
   ⟨[.const 0 2], .ret⟩]

/-- The expected result of `IfToGoto`: the branch becomes `goto L`. -/
def ifToGotoExpected : Program :=
  [⟨[.const 0 0], .goto 2⟩,
   ⟨[.const 0 1], .goto 2⟩,
   ⟨[.const 0 2], .ret⟩]

/-- The `JumpToImmediateNext` test program: `load-param v0; if-eqz v0 :next;
:next; if-eqz v0 :end; const v0 1; :end; return-void`; the first branch's
taken and fallthrough successors are the same block. -/
def jumpToNextProg : Program :=
  [⟨[.loadParam 0], .branch (.eqz 0) 1 1⟩,
   ⟨[], .branch (.eqz 0) 3 2⟩,
   ⟨[.const 0 1], .goto 3⟩,
   ⟨[], .ret⟩]

/-- The `FoldArithmeticAddLit` test program: `const v0 2147483646;
add-int/lit8 v0 v0 1; const v1 2147483647; if-eq v0 v1 :end;
const v0 2147483647; add-int/lit8 v0 v0 1; :end; return-void`. -/
def foldAddProg : Program :=
  [⟨[.const 0 2147483646, .addIntLit8 0 0 1, .const 1 2147483647], .branch (.eq 0 1) 2 1⟩,
   ⟨[.const 0 2147483647, .addIntLit8 0 0 1], .goto 2⟩,
   ⟨[], .ret⟩]

/-- The expected result of `FoldArithmeticAddLit`: the non-overflowing add is
folded to `const v0 2147483647` and the branch becomes a goto, while the
overflowing add is left intact. -/
def foldAddExpected : Program :=
  [⟨[.const 0 2147483646, .const 0 2147483647, .const 1 2147483647], .goto 2⟩,
   ⟨[.const 0 2147483647, .addIntLit8 0 0 1], .goto 2⟩,
   ⟨[], .ret⟩]

/-- The `AnalyzeCmp` test program: three branches set (v0, v1) to
(0,1)/(1,1)/(1,0), each followed by `cmp-long v2 v0 v1`, a `const v3` with the
expected -1/0/1 and an `if-eq v2 v3 :end`. -/
def analyzeCmpProg : Program :=
  [⟨[.loadParam 0], .branch (.eqz 0) 3 1⟩,
   ⟨[], .branch (.gez 0) 4 2⟩,
   ⟨[.constWide 0 0, .constWide 1 1, .cmpLong 2 0 1, .const 3 (-1)], .branch (.eq 2 3) 5 3⟩,
   ⟨[.constWide 0 1, .constWide 1 1, .cmpLong 2 0 1, .const 3 0], .branch (.eq 2 3) 5 4⟩,
   ⟨[.constWide 0 1, .constWide 1 0, .cmpLong 2 0 1, .const 3 1], .branch (.eq 2 3) 5 5⟩,
   ⟨[], .ret⟩]

/-- The expected result of `AnalyzeCmp`: every `if-eq v2 v3` becomes a
`goto :end`. -/
def analyzeCmpExpected : Program :=
  [⟨[.loadParam 0], .branch (.eqz 0) 3 1⟩,
   ⟨[], .branch (.gez 0) 4 2⟩,
   ⟨[.constWide 0 0, .constWide 1 1, .cmpLong 2 0 1, .const 3 (-1)], .goto 5⟩,
   ⟨[.constWide 0 1, .constWide 1 1, .cmpLong 2 0 1, .const 3 0], .goto 5⟩,
   ⟨[.constWide 0 1, .constWide 1 0, .cmpLong 2 0 1, .const 3 1], .goto 5⟩,
   ⟨[], .ret⟩]

/-- The `WhiteBox2` loop program: `load-param v0; loop: const v1 0;
if-gez v0 L; goto loop; L: return-void`; block 1 is the loop head. -/
def whiteBox2Prog : Program :=
  [⟨[.loadParam 0], .goto 1⟩,
   ⟨[.const 1 0], .branch (.gez 0) 3 2⟩,
   ⟨[], .goto 1⟩,
   ⟨[], .ret⟩]

end constant_propagation

/-- C3: when the taken and fallthrough successors of a conditional branch
coincide, the edge contribution to that successor is the unrefined out-state;
consequently analysis plus transform leaves the `JumpToImmediateNext` program
unchanged — in particular the second `if-eqz` is not rewritten to a goto. -/
theorem C3_jump_to_immediate_next :
    (∀ (cfg : constant_propagation.ConstPropConfig) (insns : List constant_propagation.Insn)
      (c : constant_propagation.Cond) (t : Nat) (e : constant_propagation.Env),
      constant_propagation.edgeContrib cfg ⟨insns, .branch c t t⟩ e t =
        constant_propagation.outOf cfg ⟨insns, .branch c t t⟩ e) ∧
    constant_propagation.do_const_prop {} constant_propagation.jumpToNextProg [] 30 =
      some constant_propagation.jumpToNextProg := by
  constructor
  · intro cfg insns c t e
    cases h : constant_propagation.outOf cfg ⟨insns, .branch c t t⟩ e <;>
      simp [constant_propagation.edgeContrib, h]
  · decide

/-- C4: with `fold_arithmetic` on, an add-with-literal whose source holds a
singleton `v` is rewritten to `const vD (v + lit)` exactly when `v + lit`
fits the 32-bit result width, and is left intact on overflow; on the
`FoldArithmeticAddLit` program the first add becomes `const v0 2147483647`
and the overflowing second add is unchanged. -/
theorem C4_fold_arithmetic_add_lit :
    (∀ v lit : Int,
      (constant_propagation.transformInsns ⟨true⟩ [.addIntLit8 0 0 lit]
        (constant_propagation.RegState.topState.set 0 (SignedConstantDomain.of v))).1 =
        if int32Min ≤ v + lit ∧ v + lit ≤ int32Max then [.const 0 (v + lit)]
        else [.addIntLit8 0 0 lit]) ∧
    constant_propagation.do_const_prop ⟨true⟩ constant_propagation.foldAddProg [] 30 =
      some constant_propagation.foldAddExpected := by
  constructor
  · intro v lit
    by_cases h : int32Min ≤ v + lit ∧ v + lit ≤ int32Max <;>
      simp [constant_propagation.transformInsns, constant_propagation.evalInsn,
        constant_propagation.RegState.get, constant_propagation.RegState.set,
        constant_propagation.RegState.topState, SignedConstantDomain.getConst,
        SignedConstantDomain.of_eq, SignedConstantDomain.top,
        ConstantDomain.get_constant, h]
  · decide

/-- C5: the cmp-long transfer on two singletons yields the singleton sign of
their difference (-1 below, 0 equal, 1 above); on the `AnalyzeCmp` program
every `if-eq v2 v3` against the matching -1/0/1 singleton becomes a goto. -/
theorem C5_cmp_long :
    (∀ a b : Int,
      constant_propagation.cmpLongSem (SignedConstantDomain.of a) (SignedConstantDomain.of b) =
        SignedConstantDomain.of (if a < b then -1 else if a = b then 0 else 1)) ∧
    constant_propagation.do_const_prop {} constant_propagation.analyzeCmpProg [] 30 =
      some constant_propagation.analyzeCmpExpected := by
  constructor
  · intro a b
    rw [SignedConstantDomain.of_eq a, SignedConstantDomain.of_eq b]
    rcases lt_trichotomy a b with h | h | h
    · simp [constant_propagation.cmpLongSem, SignedConstantDomain.max_element,
        SignedConstantDomain.min_element, ConstantDomain.get_constant,
        SignedConstantDomain.bottom, SignedConstantDomain.of_eq, h, h.ne]
    · subst h
      simp [constant_propagation.cmpLongSem, SignedConstantDomain.max_element,
        SignedConstantDomain.min_element, ConstantDomain.get_constant,
        SignedConstantDomain.bottom, lt_irrefl, le_refl]
      decide
    · simp [constant_propagation.cmpLongSem, SignedConstantDomain.max_element,
        SignedConstantDomain.min_element, ConstantDomain.get_constant,
        SignedConstantDomain.bottom, SignedConstantDomain.of_eq, h, h.ne, h.ne',
        not_lt.mpr h.le]
  · decide

/-- C6: a conditional branch whose fallthrough refinement is BOTTOM under the
state at the branch becomes a goto to the taken successor, and symmetrically
a branch whose taken refinement is BOTTOM becomes a goto to the fallthrough
successor; on the `IfToGoto` program the `if-eqz` becomes `goto L` and every
other instruction is unchanged. -/
theorem C6_if_to_goto :
    (∀ (c : constant_propagation.Cond) (tk fl : Nat) (st : constant_propagation.RegState),
      (constant_propagation.refineCond c false st = none →
        constant_propagation.refineCond c true st ≠ none →
        constant_propagation.transformTerm (.branch c tk fl) st = .goto tk) ∧
      (constant_propagation.refineCond c true st = none →
        constant_propagation.refineCond c false st ≠ none →
        constant_propagation.transformTerm (.branch c tk fl) st = .goto fl)) ∧
    constant_propagation.do_const_prop {} constant_propagation.ifToGotoProg [] 30 =
      some constant_propagation.ifToGotoExpected := by
  refine ⟨fun c tk fl st => ⟨fun h1 h2 => ?_, fun h1 h2 => ?_⟩, by decide⟩
  · simp [constant_propagation.transformTerm, h1, h2]
  · simp [constant_propagation.transformTerm, h1, h2]

/-- Witness for C6 at a concrete branch: with v0 the singleton 0, `if-eqz v0`
has BOTTOM fallthrough refinement and becomes a goto to the taken successor. -/
theorem C6_witness :
    constant_propagation.transformTerm (.branch (.eqz 0) 2 1)
      (constant_propagation.RegState.topState.set 0 (SignedConstantDomain.of 0)) =
      .goto 2 :=
  (C6_if_to_goto.1 (.eqz 0) 2 1 _).1 (by decide) (by decide)

/-- C7: with widening applied only at the loop head (block 1), the fixpoint
of the `WhiteBox2` loop program from the all-TOP entry environment converges,
and the exit block's state has v0 equal to the interval value GEZ and v1
equal to the singleton 0. -/
theorem C7_whitebox2_loop :
    ((constant_propagation.analyze {} constant_propagation.whiteBox2Prog [1] 30).bind
        (fun s => s.getD 3 none)).map (fun st => (st.get 0, st.get 1)) =
      some (SignedConstantDomain.of_interval .gez, SignedConstantDomain.of 0) := by
  decide
